import Mathlib

/-!
Verification of the asynchronous download-job core: an in-memory job store
with event emission (`JobStore` in `src/utils/jobStore.ts`), a bounded-
concurrency FIFO queue with retry (`SimpleQueue`), the background worker
(`processDownloadJob` in `src/jobs/downloadWorker.ts`) and the HTTP routes
for submission and subscription.  Each definition is a direct shallow
embedding of the corresponding TypeScript function; timestamps are modelled
as integers (milliseconds), the JS `Map` as an association list with
insert-or-replace semantics, and `EventEmitter.emit` calls as an explicit
list of emitted events.
-/

namespace DL

/-- Job status enum: `type JobStatus = "queued" | "processing" | "ready" | "failed"`. -/
inductive JobStatus
  | queued
  | processing
  | ready
  | failed
deriving DecidableEq, Repr

/-- `ready` and `failed` are the terminal statuses of the documented lifecycle. -/
def JobStatus.isTerminal : JobStatus → Bool
  | .ready => true
  | .failed => true
  | _ => false

/-- The `Job` interface of `jobStore.ts`.  Optional TS fields are `Option`s,
`Date` values are integer timestamps. -/
structure Job where
  jobId : String
  fileIds : List Int
  status : JobStatus
  progress : Int
  downloadUrl : Option String := none
  s3Key : Option String := none
  error : Option String := none
  createdAt : Int
  updatedAt : Int
  processingStartedAt : Option Int := none
  completedAt : Option Int := none
deriving DecidableEq, Repr

/-- `CreateJobInput` of `jobStore.ts`. -/
structure CreateJobInput where
  jobId : String
  fileIds : List Int
deriving DecidableEq, Repr

/-- `UpdateJobInput` of `jobStore.ts`: every field optional; an absent field
leaves the stored value untouched (object-spread merge). -/
structure UpdateJobInput where
  status : Option JobStatus := none
  progress : Option Int := none
  downloadUrl : Option String := none
  s3Key : Option String := none
  error : Option String := none
  processingStartedAt : Option Int := none
  completedAt : Option Int := none
deriving DecidableEq, Repr

/-- The store's `Map<string, Job>`, as an association list in insertion order. -/
abbrev Store := List (String × Job)

/-- `Map.get`: first entry with the given key. -/
def mapGet (s : Store) (k : String) : Option Job :=
  match s with
  | [] => none
  | (k2, j) :: rest => if k2 = k then some j else mapGet rest k

/-- `Map.set`: replace in place if the key exists, else append. -/
def mapSet (s : Store) (k : String) (v : Job) : Store :=
  match s with
  | [] => [(k, v)]
  | (k2, j) :: rest => if k2 = k then (k, v) :: rest else (k2, j) :: mapSet rest k v

/-- Event classification used in the `emit` payloads (`created`, `updated`,
`completed`, `failed`). -/
inductive EventType
  | created
  | updated
  | completed
  | failed
deriving DecidableEq, Repr

/-- One `emit(channel, payload)` call: the channel string, the payload type
tag and the job snapshot carried by the payload. -/
structure Event where
  channel : String
  type : EventType
  job : Job
deriving DecidableEq, Repr

/-- The per-job SSE channel name: `` `job:${jobId}` ``. -/
def jobChannel (jobId : String) : String := "job:" ++ jobId

/-- `JobStore.createJob`: insert a fresh `queued` job with progress 0 and
emit `created` on the per-job channel and on `"job:created"`. -/
def createJob (now : Int) (input : CreateJobInput) (s : Store) :
    Job × Store × List Event :=
  let job : Job :=
    { jobId := input.jobId
      fileIds := input.fileIds
      status := .queued
      progress := 0
      createdAt := now
      updatedAt := now }
  (job, mapSet s input.jobId job,
    [⟨jobChannel input.jobId, .created, job⟩, ⟨"job:created", .created, job⟩])

/-- Merge an optional update field over the stored optional value
(object spread: present key overrides, absent key keeps). -/
def mergeOpt (u cur : Option α) : Option α :=
  match u with
  | some v => some v
  | none => cur

/-- The object spread `{...job, ...updates, updatedAt: new Date()}` of
`JobStore.updateJob`. -/
def applyUpdates (job : Job) (u : UpdateJobInput) (now : Int) : Job :=
  { job with
    status := u.status.getD job.status
    progress := u.progress.getD job.progress
    downloadUrl := mergeOpt u.downloadUrl job.downloadUrl
    s3Key := mergeOpt u.s3Key job.s3Key
    error := mergeOpt u.error job.error
    processingStartedAt := mergeOpt u.processingStartedAt job.processingStartedAt
    completedAt := mergeOpt u.completedAt job.completedAt
    updatedAt := now }

/-- `JobStore.updateJob`: on a missing id return `undefined` with no store
change and no event; otherwise merge the updates, store the result, emit
`updated` on the per-job channel, and additionally emit `completed`
(resp. `failed`) on the per-job channel and the global channel when the
resulting status is `ready` (resp. `failed`). -/
def updateJob (now : Int) (jobId : String) (updates : UpdateJobInput) (s : Store) :
    Option Job × Store × List Event :=
  match mapGet s jobId with
  | none => (none, s, [])
  | some job =>
    let updatedJob := applyUpdates job updates now
    let evs :=
      ⟨jobChannel jobId, .updated, updatedJob⟩ ::
        (if updatedJob.status = .ready then
          [⟨jobChannel jobId, .completed, updatedJob⟩,
            ⟨"job:completed", .completed, updatedJob⟩]
        else if updatedJob.status = .failed then
          [⟨jobChannel jobId, .failed, updatedJob⟩,
            ⟨"job:failed", .failed, updatedJob⟩]
        else [])
    (some updatedJob, mapSet s jobId updatedJob, evs)

/-- The record returned by `JobStore.getStats`. -/
structure Stats where
  total : Nat
  queued : Nat
  processing : Nat
  ready : Nat
  failed : Nat
deriving DecidableEq, Repr

/-- `JobStore.getStats`: per-status counts over all stored jobs. -/
def getStats (s : Store) : Stats :=
  let jobs := s.map Prod.snd
  { total := jobs.length
    queued := (jobs.filter (fun j => j.status == JobStatus.queued)).length
    processing := (jobs.filter (fun j => j.status == JobStatus.processing)).length
    ready := (jobs.filter (fun j => j.status == JobStatus.ready)).length
    failed := (jobs.filter (fun j => j.status == JobStatus.failed)).length }

/-- The deletion condition of `JobStore.cleanup`: terminal status and
`now - updatedAt > maxAgeMs`. -/
def isExpired (now maxAgeMs : Int) (j : Job) : Bool :=
  (j.status == JobStatus.ready || j.status == JobStatus.failed) &&
    decide (now - j.updatedAt > maxAgeMs)

/-- `JobStore.cleanup`: delete every expired entry, counting deletions. -/
def cleanup (now maxAgeMs : Int) (s : Store) : Nat × Store :=
  ((s.filter (fun p => isExpired now maxAgeMs p.2)).length,
    s.filter (fun p => !isExpired now maxAgeMs p.2))

/-! ### Association-list lemmas for the store map -/

theorem mapGet_mapSet_self (s : Store) (k : String) (v : Job) :
    mapGet (mapSet s k v) k = some v := by
  induction s with
  | nil => simp [mapGet, mapSet]
  | cons hd tl ih =>
    obtain ⟨k2, j⟩ := hd
    by_cases h : k2 = k
    · simp [mapGet, mapSet, h]
    · simp [mapGet, mapSet, h, ih]

theorem mapGet_mapSet_ne (s : Store) (k k2 : String) (v : Job) (h : k ≠ k2) :
    mapGet (mapSet s k v) k2 = mapGet s k2 := by
  induction s with
  | nil => simp [mapGet, mapSet, h]
  | cons hd tl ih =>
    obtain ⟨k3, j⟩ := hd
    by_cases h3 : k3 = k
    · subst h3
      simp [mapGet, mapSet, h]
    · simp [mapGet, mapSet, h3, ih]

theorem mapGet_eq_none_of_not_mem (s : Store) (k : String)
    (h : k ∉ s.map Prod.fst) : mapGet s k = none := by
  induction s with
  | nil => rfl
  | cons hd tl ih =>
    obtain ⟨k2, j⟩ := hd
    simp only [List.map_cons, List.mem_cons] at h
    push_neg at h
    simp [mapGet, Ne.symm h.1, ih h.2]

/-- With distinct keys, looking up a kept entry after a filter-by-value. -/
theorem mapGet_filter (q : Job → Bool) (s : Store) (k : String) (j : Job)
    (hnd : (s.map Prod.fst).Nodup) (h : mapGet s k = some j) :
    mapGet (s.filter (fun p => q p.2)) k = if q j then some j else none := by
  induction s with
  | nil => simp [mapGet] at h
  | cons hd tl ih =>
    obtain ⟨k2, j2⟩ := hd
    simp only [List.map_cons, List.nodup_cons] at hnd
    by_cases hk : k2 = k
    · subst hk
      have hj : j2 = j := by simpa [mapGet] using h
      subst hj
      by_cases hq : q j2
      · rw [List.filter_cons_of_pos (by simpa using hq)]
        simp [mapGet, hq]
      · rw [List.filter_cons_of_neg (by simpa using hq)]
        have hnone : mapGet (tl.filter (fun p => q p.2)) k2 = none := by
          apply mapGet_eq_none_of_not_mem
          intro hmem
          rcases List.mem_map.mp hmem with ⟨p, hp, hfst⟩
          exact hnd.1 (List.mem_map.mpr ⟨p, List.mem_of_mem_filter hp, hfst⟩)
        simp [hnone, hq]
    · have h2 : mapGet tl k = some j := by simpa [mapGet, hk] using h
      by_cases hq2 : q j2
      · rw [List.filter_cons_of_pos (by simpa using hq2)]
        simpa [mapGet, hk] using ih hnd.2 h2
      · rw [List.filter_cons_of_neg (by simpa using hq2)]
        exact ih hnd.2 h2

/-- Anything found after the filter was in the original store and satisfies
the filter. -/
theorem mapGet_filter_mem (q : Job → Bool) (s : Store) (k : String) (j : Job)
    (hnd : (s.map Prod.fst).Nodup)
    (h : mapGet (s.filter (fun p => q p.2)) k = some j) :
    mapGet s k = some j ∧ q j = true := by
  induction s with
  | nil => simp [mapGet] at h
  | cons hd tl ih =>
    obtain ⟨k2, j2⟩ := hd
    simp only [List.map_cons, List.nodup_cons] at hnd
    by_cases hq2 : q j2
    · rw [List.filter_cons_of_pos (by simpa using hq2)] at h
      by_cases hk : k2 = k
      · subst hk
        have hj : j2 = j := by simpa [mapGet] using h
        subst hj
        exact ⟨by simp [mapGet], hq2⟩
      · have h2 : mapGet (tl.filter (fun p => q p.2)) k = some j := by
          simpa [mapGet, hk] using h
        have := ih hnd.2 h2
        exact ⟨by simp [mapGet, hk, this.1], this.2⟩
    · rw [List.filter_cons_of_neg (by simpa using hq2)] at h
      have := ih hnd.2 h
      by_cases hk : k2 = k
      · subst hk
        exfalso
        have hnone := mapGet_eq_none_of_not_mem tl k2 hnd.1
        rw [hnone] at this
        exact Option.noConfusion this.1
      · exact ⟨by simp [mapGet, hk, this.1], this.2⟩

theorem length_filter_add_length_filter_not (q : Job → Bool) (s : Store) :
    (s.filter (fun p => q p.2)).length + (s.filter (fun p => !q p.2)).length
      = s.length := by
  induction s with
  | nil => rfl
  | cons hd tl ih =>
    by_cases hq : q hd.2
    · simp [List.filter, hq, ih]
      omega
    · simp [List.filter, hq, ih]
      omega

/-! ### Submission endpoint (`POST /v1/download/async`) -/

/-- The `file_ids` validation of `AsyncDownloadRequestSchema`:
`z.array(z.number().int().min(10000).max(100000000)).min(1).max(1000)`. -/
def validFileIds (l : List Int) : Bool :=
  decide (1 ≤ l.length) && decide (l.length ≤ 1000) &&
    l.all (fun n => decide (10000 ≤ n) && decide (n ≤ 100000000))

/-- Outcome of a submission request. -/
inductive SubmitResult
  | accepted (jobId : String)
  | invalidInput
deriving DecidableEq, Repr

/-- The `POST /v1/download/async` route: zod validation runs before the
handler, so an invalid body is answered with a 400 error and the handler —
`queueDownloadJob`, which calls `jobStore.createJob` — never runs. -/
def postDownloadAsync (jobId : String) (now : Int) (file_ids : List Int)
    (s : Store) : SubmitResult × Store :=
  if validFileIds file_ids then
    (.accepted jobId, (createJob now ⟨jobId, file_ids⟩ s).2.1)
  else
    (.invalidInput, s)

/-! ### Concrete fixtures -/

/-- A job already in the terminal `ready` state. -/
def readyFixture : Job :=
  { jobId := "11111111-1111-4111-8111-111111111111"
    fileIds := [10001]
    status := .ready
    progress := 100
    downloadUrl := some "https://s3.example/url"
    createdAt := 0
    updatedAt := 0 }

/-- A job in the middle of processing. -/
def processingFixture : Job :=
  { jobId := "22222222-2222-4222-8222-222222222222"
    fileIds := [10001, 10002]
    status := .processing
    progress := 50
    createdAt := 0
    updatedAt := 0 }

/-- A terminal job whose last update is long in the past. -/
def oldReadyFixture : Job :=
  { jobId := "33333333-3333-4333-8333-333333333333"
    fileIds := [10001]
    status := .ready
    progress := 100
    downloadUrl := some "https://s3.example/old"
    createdAt := 0
    updatedAt := 0 }

/-- A non-terminal job created recently. -/
def freshQueuedFixture : Job :=
  { jobId := "44444444-4444-4444-8444-444444444444"
    fileIds := [10002]
    status := .queued
    progress := 0
    createdAt := 999999
    updatedAt := 999999 }

/-- A two-job store for exercising `cleanup`. -/
def cleanupFixtureStore : Store :=
  [(oldReadyFixture.jobId, oldReadyFixture),
    (freshQueuedFixture.jobId, freshQueuedFixture)]

/-! ### Channel-name facts -/

theorem jobChannel_inj {a b : String} (h : jobChannel a = jobChannel b) :
    a = b := by
  have h2 := congrArg String.data h
  simp [jobChannel, String.data_append] at h2
  exact String.ext h2

/-! ### C10 -/

/-- C10: for a job id not present in the store, `updateJob` returns
`undefined` (here `none`), emits no event, and leaves the job map exactly
unchanged. -/
theorem updateJob_unknown_id (now : Int) (jobId : String) (u : UpdateJobInput)
    (s : Store) (h : mapGet s jobId = none) :
    updateJob now jobId u s = (none, s, []) := by
  simp [updateJob, h]

/-- Witness for `updateJob_unknown_id` on the empty store. -/
theorem updateJob_unknown_id_witness :
    mapGet ([] : Store) "a" = none ∧
      updateJob 0 "a" {} ([] : Store) = (none, [], []) :=
  ⟨rfl, updateJob_unknown_id 0 "a" {} [] rfl⟩

/-! ### C1 -/

/-- C1 counterexample: `updateJob` applies an update to a job that is
already in the terminal `ready` state — the stored progress changes from
100 to 5, so terminal state is not write-once. -/
theorem terminal_update_applied_counterexample :
    readyFixture.status.isTerminal = true ∧
    readyFixture.progress = 100 ∧
    (mapGet (updateJob 7 readyFixture.jobId { progress := some 5 }
        [(readyFixture.jobId, readyFixture)]).2.1 readyFixture.jobId).map
        Job.progress = some 5 ∧
    (5 : Int) ≠ 100 := by
  refine ⟨rfl, rfl, by rfl, by decide⟩

/-- C1 amended: `updateJob` never rejects or ignores an update based on the
current status: for every existing job — terminal ones included — the
partial update is merged over the stored job (with `updatedAt := now`),
stored, and returned. -/
theorem updateJob_applies_regardless_of_status (now : Int) (jobId : String)
    (u : UpdateJobInput) (s : Store) (j : Job) (h : mapGet s jobId = some j) :
    (updateJob now jobId u s).1 = some (applyUpdates j u now) ∧
    mapGet (updateJob now jobId u s).2.1 jobId = some (applyUpdates j u now) := by
  simp [updateJob, h, mapGet_mapSet_self]

/-- Witness for `updateJob_applies_regardless_of_status` on a terminal job. -/
theorem updateJob_applies_regardless_witness :
    mapGet [(readyFixture.jobId, readyFixture)] readyFixture.jobId
        = some readyFixture ∧
    ((updateJob 7 readyFixture.jobId { progress := some 5 }
        [(readyFixture.jobId, readyFixture)]).1
      = some (applyUpdates readyFixture { progress := some 5 } 7) ∧
      mapGet (updateJob 7 readyFixture.jobId { progress := some 5 }
        [(readyFixture.jobId, readyFixture)]).2.1 readyFixture.jobId
      = some (applyUpdates readyFixture { progress := some 5 } 7)) :=
  ⟨rfl, updateJob_applies_regardless_of_status 7 readyFixture.jobId
    { progress := some 5 } [(readyFixture.jobId, readyFixture)] readyFixture rfl⟩

/-! ### C3 -/

/-- C3 counterexample: a single `updateJob` call that moves a job to
`ready` emits two events on the per-job stream (`updated` followed by
`completed`), not exactly one. -/
theorem perjob_two_events_counterexample :
    (((updateJob 3 processingFixture.jobId
        { status := some .ready, progress := some 100 }
        [(processingFixture.jobId, processingFixture)]).2.2.filter
        (fun ev => ev.channel == jobChannel processingFixture.jobId)).length
      = 2) ∧ (2 : Nat) ≠ 1 := by
  refine ⟨by rfl, by decide⟩

/-- C3 amended: for an existing job whose id is not the literal string
`"completed"` or `"failed"` (true of every UUID job id), one `updateJob`
call emits exactly one `updated` event on the per-job stream, plus exactly
one additional `completed` (resp. `failed`) event on that same stream when
the resulting status is `ready` (resp. `failed`) — so two per-job events
for a terminal transition and one otherwise, never zero. -/
theorem updateJob_perjob_event_count (now : Int) (jobId : String)
    (u : UpdateJobInput) (s : Store) (j : Job) (h : mapGet s jobId = some j)
    (hc : jobId ≠ "completed") (hf : jobId ≠ "failed") :
    ((updateJob now jobId u s).2.2.filter
        (fun ev => ev.channel == jobChannel jobId)).map Event.type
      = if (applyUpdates j u now).status = .ready then [.updated, .completed]
        else if (applyUpdates j u now).status = .failed then [.updated, .failed]
        else [.updated] := by
  have hcc : ("job:completed" == jobChannel jobId) = false := by
    simp only [beq_eq_false_iff_ne, ne_eq]
    intro hEq
    exact hc (jobChannel_inj (a := "completed") hEq).symm
  have hff : ("job:failed" == jobChannel jobId) = false := by
    simp only [beq_eq_false_iff_ne, ne_eq]
    intro hEq
    exact hf (jobChannel_inj (a := "failed") hEq).symm
  by_cases hr : (applyUpdates j u now).status = .ready
  · simp [updateJob, h, hr, hcc]
  · by_cases hfa : (applyUpdates j u now).status = .failed
    · simp [updateJob, h, hr, hfa, hff]
    · simp [updateJob, h, hr, hfa]

/-- Witness for `updateJob_perjob_event_count` on a terminal transition. -/
theorem updateJob_perjob_event_count_witness :
    mapGet [(processingFixture.jobId, processingFixture)] processingFixture.jobId
        = some processingFixture ∧
    processingFixture.jobId ≠ "completed" ∧
    processingFixture.jobId ≠ "failed" ∧
    ((updateJob 3 processingFixture.jobId
        { status := some .ready, progress := some 100 }
        [(processingFixture.jobId, processingFixture)]).2.2.filter
        (fun ev => ev.channel == jobChannel processingFixture.jobId)).map
        Event.type
      = if (applyUpdates processingFixture
            { status := some .ready, progress := some 100 } 3).status = .ready
        then [.updated, .completed]
        else if (applyUpdates processingFixture
            { status := some .ready, progress := some 100 } 3).status = .failed
        then [.updated, .failed]
        else [.updated] :=
  ⟨rfl, by decide, by decide,
    updateJob_perjob_event_count 3 processingFixture.jobId
      { status := some .ready, progress := some 100 }
      [(processingFixture.jobId, processingFixture)] processingFixture rfl
      (by decide) (by decide)⟩

/-! ### C4 -/

/-- C4: a submission whose `file_ids` is empty or longer than the configured
maximum (1000) is rejected as invalid input, no job is created, and the
store and its stats are unchanged. -/
theorem invalid_submission_rejected (jobId : String) (now : Int)
    (file_ids : List Int) (s : Store)
    (h : file_ids.length = 0 ∨ file_ids.length > 1000) :
    (postDownloadAsync jobId now file_ids s).1 = .invalidInput ∧
    (postDownloadAsync jobId now file_ids s).2 = s ∧
    getStats (postDownloadAsync jobId now file_ids s).2 = getStats s := by
  have hv : validFileIds file_ids = false := by
    simp only [validFileIds, Bool.and_eq_false_iff, decide_eq_false_iff_not,
      not_le, not_lt]
    rcases h with h | h
    · exact Or.inl (Or.inl (by omega))
    · exact Or.inl (Or.inr (by omega))
  simp [postDownloadAsync, hv]

/-- Witness for `invalid_submission_rejected` on the empty file list. -/
theorem invalid_submission_rejected_witness :
    (([] : List Int).length = 0 ∨ ([] : List Int).length > 1000) ∧
    ((postDownloadAsync "5" 0 [] []).1 = .invalidInput ∧
      (postDownloadAsync "5" 0 [] []).2 = [] ∧
      getStats (postDownloadAsync "5" 0 [] []).2 = getStats []) :=
  ⟨Or.inl rfl, invalid_submission_rejected "5" 0 [] [] (Or.inl rfl)⟩

/-! ### C9 -/

/-- The Bool deletion test agrees with the claim's condition. -/
theorem isExpired_iff (now maxAgeMs : Int) (j : Job) :
    isExpired now maxAgeMs j = true ↔
      ((j.status = .ready ∨ j.status = .failed) ∧
        now - j.updatedAt > maxAgeMs) := by
  simp [isExpired]

/-- C9: `cleanup now maxAgeMs` deletes exactly the terminal (`ready` or
`failed`) jobs whose `updatedAt` is more than `maxAgeMs` in the past; every
other job — `queued`, `processing`, or recently-updated terminal — remains
present and unchanged, and the returned count equals the number of deleted
jobs. -/
theorem cleanup_deletes_only_expired_terminal (now maxAgeMs : Int) (s : Store)
    (hnd : (s.map Prod.fst).Nodup) :
    ((cleanup now maxAgeMs s).1 + (cleanup now maxAgeMs s).2.length
        = s.length) ∧
    (∀ k j, mapGet s k = some j →
      if (j.status = .ready ∨ j.status = .failed) ∧ now - j.updatedAt > maxAgeMs
      then mapGet (cleanup now maxAgeMs s).2 k = none
      else mapGet (cleanup now maxAgeMs s).2 k = some j) ∧
    (∀ k j, mapGet (cleanup now maxAgeMs s).2 k = some j →
      mapGet s k = some j ∧
        ¬((j.status = .ready ∨ j.status = .failed) ∧
          now - j.updatedAt > maxAgeMs)) := by
  refine ⟨?_, ?_, ?_⟩
  · exact length_filter_add_length_filter_not (isExpired now maxAgeMs) s
  · intro k j hj
    have hfil := mapGet_filter (fun j2 => !isExpired now maxAgeMs j2) s k j hnd hj
    by_cases hcond : (j.status = .ready ∨ j.status = .failed) ∧
        now - j.updatedAt > maxAgeMs
    · have : isExpired now maxAgeMs j = true := (isExpired_iff now maxAgeMs j).mpr hcond
      simp only [cleanup, hcond, if_true]
      simpa [this] using hfil
    · have : isExpired now maxAgeMs j = false := by
        rcases Bool.eq_false_or_eq_true (isExpired now maxAgeMs j) with hb | hb
        · exact absurd ((isExpired_iff now maxAgeMs j).mp hb) hcond
        · exact hb
      simp only [cleanup, hcond, if_false]
      simpa [this] using hfil
  · intro k j hj
    have := mapGet_filter_mem (fun j2 => !isExpired now maxAgeMs j2) s k j hnd
      (by simpa [cleanup] using hj)
    refine ⟨this.1, ?_⟩
    intro hcond
    have hb := (isExpired_iff now maxAgeMs j).mpr hcond
    have h2 : (!isExpired now maxAgeMs j) = true := this.2
    rw [hb] at h2
    exact Bool.noConfusion h2

/-- Witness for `cleanup_deletes_only_expired_terminal` on a store holding
one expired terminal job and one fresh queued job. -/
theorem cleanup_deletes_only_expired_witness :
    ((cleanupFixtureStore.map Prod.fst).Nodup) ∧
    (((cleanup 1000000 100 cleanupFixtureStore).1 +
        (cleanup 1000000 100 cleanupFixtureStore).2.length
          = cleanupFixtureStore.length) ∧
      (∀ k j, mapGet cleanupFixtureStore k = some j →
        if (j.status = .ready ∨ j.status = .failed) ∧
            (1000000 : Int) - j.updatedAt > 100
        then mapGet (cleanup 1000000 100 cleanupFixtureStore).2 k = none
        else mapGet (cleanup 1000000 100 cleanupFixtureStore).2 k = some j) ∧
      (∀ k j, mapGet (cleanup 1000000 100 cleanupFixtureStore).2 k = some j →
        mapGet cleanupFixtureStore k = some j ∧
          ¬((j.status = .ready ∨ j.status = .failed) ∧
            (1000000 : Int) - j.updatedAt > 100))) :=
  ⟨by decide,
    cleanup_deletes_only_expired_terminal 1000000 100 cleanupFixtureStore
      (by decide)⟩

/-! ### Worker (`processDownloadJob` in `downloadWorker.ts`)

The external storage capability (`s3Service.uploadFile`) and the URL
issuance (`s3Service.generatePresignedUrl`) are opaque fallible async
calls; they are modelled as oracle functions returning `Except`, where
`.error` is a thrown/rejected error whose message feeds the `catch`
block's `error.message`. -/

/-- The queue entry (`QueueJob` in `queue.ts`). -/
structure QueueJob where
  jobId : String
  fileIds : List Int
  addedAt : Int
  attempts : Nat
deriving DecidableEq, Repr

/-- `PARALLEL_FILE_BATCH_SIZE = 3` in `downloadWorker.ts`. -/
def PARALLEL_FILE_BATCH_SIZE : Nat := 3

/-- The worker's batching loop
`for (i = 0; i < total; i += 3) fileIds.slice(i, i + 3)`: consecutive
batches of size 3 (the last possibly shorter). -/
def chunkFiles : List Int → List (List Int)
  | [] => []
  | x :: rest => (x :: rest.take 2) :: chunkFiles (rest.drop 2)
termination_by l => l.length
decreasing_by simp; omega

/-- `Math.round((completed / total) * 100)` on non-negative inputs:
`Math.round x = ⌊x + 1/2⌋`, hence `(200*completed + total) / (2*total)`
in integer division. -/
def jsRound100 (completed total : Nat) : Int :=
  ((200 * completed + total) / (2 * total) : Nat)

/-- `Promise.all(batch.map(processFile))`: all S3 keys if every upload in
the batch succeeds, the first failure otherwise (all-or-nothing). -/
def runBatch (upload : Int → Except String String) :
    List Int → Except String (List String)
  | [] => .ok []
  | f :: rest =>
    match upload f with
    | .error e => .error e
    | .ok key =>
      match runBatch upload rest with
      | .error e => .error e
      | .ok keys => .ok (key :: keys)

/-- The worker's loop over batches: after each successful batch, update the
job's progress to `round(processedCount / totalFiles * 100)`; abort at the
first failing batch.  Threads the store and the emitted events. -/
def runBatchLoop (upload : Int → Except String String) (now : Int)
    (jobId : String) (total : Nat) :
    List (List Int) → Nat → List String → Store → List Event →
      Except String (List String) × Store × List Event
  | [], _, keys, s, evs => (.ok keys, s, evs)
  | b :: rest, count, keys, s, evs =>
    match runBatch upload b with
    | .error e => (.error e, s, evs)
    | .ok newKeys =>
      let count2 := count + b.length
      let r := updateJob now jobId
        { progress := some (jsRound100 count2 total) } s
      runBatchLoop upload now jobId total rest count2 (keys ++ newKeys)
        r.2.1 (evs ++ r.2.2)

/-- The update `{status: "processing", progress: 0, processingStartedAt}`
written at the start of an attempt. -/
def processingUpdate (now : Int) : UpdateJobInput :=
  { status := some .processing, progress := some 0,
    processingStartedAt := some now }

/-- The update `{status: "ready", progress: 100, downloadUrl, completedAt}`
written on success. -/
def readyUpdate (now : Int) (url : String) : UpdateJobInput :=
  { status := some .ready, progress := some 100, downloadUrl := some url,
    completedAt := some now }

/-- The update `{status: "failed", error, completedAt}` written by the
`catch` block; note it does not touch `progress`. -/
def failedUpdate (now : Int) (e : String) : UpdateJobInput :=
  { status := some .failed, error := some e, completedAt := some now }

/-- `processDownloadJob`: look the job up (throwing if missing), mark it
`processing` at progress 0, run the batches, then either mark it `ready`
with progress 100 and the issued URL, or — in the `catch` block — mark it
`failed` with the error message and re-throw for the queue's retry logic. -/
def processDownloadJob (upload : Int → Except String String)
    (presign : String → Except String String) (now : Int)
    (queueJob : QueueJob) (s : Store) :
    Except String Unit × Store × List Event :=
  match mapGet s queueJob.jobId with
  | none => (.error ("Job not found: " ++ queueJob.jobId), s, [])
  | some _ =>
    let r0 := updateJob now queueJob.jobId (processingUpdate now) s
    let total := queueJob.fileIds.length
    match runBatchLoop upload now queueJob.jobId total
        (chunkFiles queueJob.fileIds) 0 [] r0.2.1 r0.2.2 with
    | (.error e, s1, evs1) =>
      let rf := updateJob now queueJob.jobId (failedUpdate now e) s1
      (.error e, rf.2.1, evs1 ++ rf.2.2)
    | (.ok keys, s1, evs1) =>
      let finalS3Key :=
        keys.getLast?.getD ("downloads/" ++ queueJob.jobId ++ ".zip")
      match presign finalS3Key with
      | .error e =>
        let rf := updateJob now queueJob.jobId (failedUpdate now e) s1
        (.error e, rf.2.1, evs1 ++ rf.2.2)
      | .ok url =>
        let rr := updateJob now queueJob.jobId (readyUpdate now url) s1
        (.ok (), rr.2.1, evs1 ++ rr.2.2)

/-- `SimpleQueue.processJob` retry-to-exhaustion for one entry: the attempt
counter is incremented on invocation; a failed attempt is re-queued while
`attempts < maxRetries` and dropped afterwards.  Per-attempt oracles allow
the storage capability to behave differently between attempts.  Returns the
number of executor invocations, the final store and all store events. -/
def runJobAttempts (maxRetries : Nat)
    (upload : Nat → Int → Except String String)
    (presign : Nat → String → Except String String) (now : Int)
    (qj : QueueJob) (s : Store) : Nat × Store × List Event :=
  let r := processDownloadJob (upload (qj.attempts + 1))
    (presign (qj.attempts + 1)) now { qj with attempts := qj.attempts + 1 } s
  match r.1 with
  | .ok _ => (1, r.2.1, r.2.2)
  | .error _ =>
    if _h : qj.attempts + 1 < maxRetries then
      let r2 := runJobAttempts maxRetries upload presign now
        { qj with attempts := qj.attempts + 1 } r.2.1
      (r2.1 + 1, r2.2.1, r.2.2 ++ r2.2.2)
    else
      (1, r.2.1, r.2.2)
termination_by maxRetries - qj.attempts
decreasing_by simp; omega

/-! ### Facts about the batch partition -/

theorem chunkFiles_flatten (l : List Int) : (chunkFiles l).flatten = l := by
  induction l using chunkFiles.induct with
  | case1 => simp [chunkFiles]
  | case2 x rest ih =>
    rw [chunkFiles]
    simp [ih]

theorem chunkFiles_eq_nil_iff (l : List Int) : chunkFiles l = [] ↔ l = [] := by
  cases l with
  | nil => simp [chunkFiles]
  | cons x rest => rw [chunkFiles]; simp

theorem chunkFiles_sizes (l : List Int) :
    ∀ b ∈ chunkFiles l, b.length ≤ PARALLEL_FILE_BATCH_SIZE ∧ b ≠ [] := by
  induction l using chunkFiles.induct with
  | case1 => simp [chunkFiles]
  | case2 x rest ih =>
    rw [chunkFiles]
    intro b hb
    rcases List.mem_cons.mp hb with h | h
    · subst h
      refine ⟨?_, by simp⟩
      have h2 := List.length_take_le 2 rest
      simp only [List.length_cons, PARALLEL_FILE_BATCH_SIZE]
      omega
    · exact ih b h

theorem chunkFiles_full_sizes (l : List Int) :
    ∀ b ∈ (chunkFiles l).dropLast, b.length = PARALLEL_FILE_BATCH_SIZE := by
  induction l using chunkFiles.induct with
  | case1 => simp [chunkFiles]
  | case2 x rest ih =>
    rw [chunkFiles]
    cases hc : chunkFiles (rest.drop 2) with
    | nil => simp
    | cons c cs =>
      rw [← hc]
      intro b hb
      have hne : chunkFiles (rest.drop 2) ≠ [] := by rw [hc]; simp
      have hrest : rest.drop 2 ≠ [] := by
        intro hr
        exact hne (by rw [hr]; simp [chunkFiles])
      have hlen : 2 < rest.length := by
        by_contra hle
        push_neg at hle
        exact hrest (List.drop_eq_nil_of_le hle)
      rw [List.dropLast_cons_of_ne_nil hne] at hb
      rcases List.mem_cons.mp hb with h | h
      · subst h
        simp only [List.length_cons, List.length_take, PARALLEL_FILE_BATCH_SIZE]
        omega
      · exact ih b h

theorem chunkFiles_sum_length (l : List Int) :
    ((chunkFiles l).map List.length).sum = l.length := by
  rw [← List.length_flatten, chunkFiles_flatten]

/-- Running totals of completed files after each successive batch. -/
def prefixCountsFrom (count : Nat) : List (List Int) → List Nat
  | [] => []
  | b :: rest => (count + b.length) :: prefixCountsFrom (count + b.length) rest

theorem prefixCountsFrom_chain (count : Nat) (bs : List (List Int)) :
    List.Chain' (· ≤ ·) (count :: prefixCountsFrom count bs) := by
  induction bs generalizing count with
  | nil => simp [prefixCountsFrom]
  | cons b rest ih =>
    rw [prefixCountsFrom]
    exact List.chain'_cons.mpr ⟨by omega, ih (count + b.length)⟩

theorem prefixCountsFrom_le (count : Nat) (bs : List (List Int)) :
    ∀ c ∈ prefixCountsFrom count bs, c ≤ count + (bs.map List.length).sum := by
  induction bs generalizing count with
  | nil => simp [prefixCountsFrom]
  | cons b rest ih =>
    intro c hc
    rw [prefixCountsFrom] at hc
    rcases List.mem_cons.mp hc with h | h
    · subst h
      simp
    · have := ih (count + b.length) c h
      simp at this ⊢
      omega

/-! ### Facts about the JS rounding formula -/

theorem jsRound100_nonneg (c t : Nat) : 0 ≤ jsRound100 c t := by
  simp only [jsRound100]
  exact Nat.cast_nonneg _

theorem jsRound100_mono {c c2 : Nat} (t : Nat) (h : c ≤ c2) :
    jsRound100 c t ≤ jsRound100 c2 t := by
  simp only [jsRound100, Nat.cast_le]
  exact Nat.div_le_div_right (by omega)

theorem jsRound100_le_100 {c t : Nat} (h : c ≤ t) : jsRound100 c t ≤ 100 := by
  simp only [jsRound100]
  have h2 : (200 * c + t) / (2 * t) ≤ 100 := by
    rcases Nat.eq_zero_or_pos t with ht | ht
    · subst ht
      simp
    · have h3 : (200 * c + t) / (2 * t) < 101 := by
        rw [Nat.div_lt_iff_lt_mul (by omega)]
        omega
      omega
  exact_mod_cast h2

/-! ### Write-event snapshots -/

/-- The job snapshots carried by the write events (`created` / `updated`)
on a job's per-job channel, in emission order: exactly one per store write
to that job. -/
def writeSnapshots (jobId : String) (evs : List Event) : List Job :=
  (evs.filter (fun ev => ev.channel == jobChannel jobId &&
    (ev.type == EventType.created || ev.type == EventType.updated))).map
    (fun ev => ev.job)

/-- The progress values of the successive writes observed on the per-job
stream. -/
def writeProgressValues (jobId : String) (evs : List Event) : List Int :=
  (writeSnapshots jobId evs).map Job.progress

theorem writeSnapshots_append (jobId : String) (a b : List Event) :
    writeSnapshots jobId (a ++ b)
      = writeSnapshots jobId a ++ writeSnapshots jobId b := by
  simp [writeSnapshots, List.filter_append]

/-- A found `updateJob` call contributes exactly one write snapshot —
the merged job — to the per-job stream (the extra `completed` / `failed`
events carry other type tags and the global channels carry no `updated`
tag). -/
theorem writeSnapshots_updateJob (now : Int) (jid : String)
    (u : UpdateJobInput) (s : Store) (j : Job) (h : mapGet s jid = some j) :
    writeSnapshots jid (updateJob now jid u s).2.2 = [applyUpdates j u now] := by
  by_cases hr : (applyUpdates j u now).status = .ready
  · simp [updateJob, h, hr, writeSnapshots]
  · by_cases hf : (applyUpdates j u now).status = .failed
    · simp [updateJob, h, hr, hf, writeSnapshots]
    · simp [updateJob, h, hr, hf, writeSnapshots]

/-! ### Worker run lemmas -/

theorem runBatch_ok (up : Int → String) (b : List Int) :
    runBatch (fun f => .ok (up f)) b = .ok (b.map up) := by
  induction b with
  | nil => rfl
  | cons f rest ih => simp [runBatch, ih]

theorem applyUpdates_progress_only (j : Job) (p now : Int) :
    applyUpdates j { progress := some p } now
      = { j with progress := p, updatedAt := now } := rfl

theorem getLast?_getD_cons {α : Type} (a x : α) (l : List α) :
    ((a :: l).getLast?).getD x = (l.getLast?).getD a := by
  cases l with
  | nil => rfl
  | cons b l2 =>
    rw [List.getLast?_cons_cons]
    have h1 : ((b :: l2).getLast?).isSome = true := by
      rw [List.getLast?_isSome]
      simp
    obtain ⟨y, hy⟩ := Option.isSome_iff_exists.mp h1
    rw [hy]
    rfl

/-- The job value written by a progress-only batch update, as a function of
the pre-loop job and the running total. -/
def progressWrite (j : Job) (now : Int) (total c : Nat) : Job :=
  { j with progress := jsRound100 c total, updatedAt := now }

theorem progressWrite_collapse (j : Job) (now : Int) (total p c : Nat) :
    progressWrite (progressWrite j now total p) now total c
      = progressWrite j now total c := rfl

/-- All-successful run of the batch loop: every batch succeeds, the keys
accumulate in order, each batch appends one status-preserving write whose
progress is the rounded running percentage, and the stored job ends at the
last written value. -/
theorem runBatchLoop_ok (up : Int → String) (now : Int) (jid : String)
    (total : Nat) :
    ∀ (bs : List (List Int)) (count : Nat) (keys : List String) (s : Store)
      (evs : List Event) (j : Job), mapGet s jid = some j →
      ∃ (s1 : Store) (evs1 : List Event),
        runBatchLoop (fun f => .ok (up f)) now jid total bs count keys s evs
          = (.ok (keys ++ bs.flatten.map up), s1, evs1) ∧
        writeSnapshots jid evs1 = writeSnapshots jid evs ++
          (prefixCountsFrom count bs).map (progressWrite j now total) ∧
        mapGet s1 jid = some (((prefixCountsFrom count bs).map
          (progressWrite j now total)).getLast?.getD j) := by
  intro bs
  induction bs with
  | nil =>
    intro count keys s evs j hj
    exact ⟨s, evs, by simp [runBatchLoop], by simp [prefixCountsFrom],
      by simp [prefixCountsFrom, hj]⟩
  | cons b rest ih =>
    intro count keys s evs j hj
    have hupd : mapGet (updateJob now jid
        { progress := some (jsRound100 (count + b.length) total) } s).2.1 jid
        = some (progressWrite j now total (count + b.length)) := by
      simp [updateJob, hj, mapGet_mapSet_self, applyUpdates_progress_only,
        progressWrite]
    obtain ⟨s1, evs1, hrun, hsnap, hget⟩ :=
      ih (count + b.length) (keys ++ b.map up) _ _ _ hupd
    have hstep : runBatchLoop (fun f => .ok (up f)) now jid total (b :: rest)
        count keys s evs
        = runBatchLoop (fun f => .ok (up f)) now jid total rest
          (count + b.length) (keys ++ b.map up)
          (updateJob now jid
            { progress := some (jsRound100 (count + b.length) total) } s).2.1
          (evs ++ (updateJob now jid
            { progress := some (jsRound100 (count + b.length) total) } s).2.2) := by
      rw [runBatchLoop]
      simp only [runBatch_ok]
    have hmapeq : (prefixCountsFrom (count + b.length) rest).map
        (progressWrite (progressWrite j now total (count + b.length)) now total)
        = (prefixCountsFrom (count + b.length) rest).map
          (progressWrite j now total) := by
      apply List.map_congr_left
      intro c hc
      exact progressWrite_collapse j now total (count + b.length) c
    refine ⟨s1, evs1, ?_, ?_, ?_⟩
    · rw [hstep, hrun]
      simp
    · rw [hsnap, writeSnapshots_append,
        writeSnapshots_updateJob now jid _ s j hj]
      rw [hmapeq]
      have hw : applyUpdates j
          { progress := some (jsRound100 (count + b.length) total) } now
          = progressWrite j now total (count + b.length) := rfl
      rw [hw]
      simp [prefixCountsFrom]
    · rw [hget, hmapeq]
      simp only [prefixCountsFrom, List.map_cons]
      rw [getLast?_getD_cons]

/-! ### Path equations for one worker attempt -/

theorem processDownloadJob_ok_eq (up2 : Int → Except String String)
    (pre2 : String → Except String String) (now : Int) (qj : QueueJob)
    (s : Store) (j : Job) (hj : mapGet s qj.jobId = some j)
    {ks : List String} {s1 : Store} {evs1 : List Event}
    (hrun : runBatchLoop up2 now qj.jobId qj.fileIds.length
      (chunkFiles qj.fileIds) 0 []
      (updateJob now qj.jobId (processingUpdate now) s).2.1
      (updateJob now qj.jobId (processingUpdate now) s).2.2
      = (.ok ks, s1, evs1))
    {url : String}
    (hpre : pre2 (ks.getLast?.getD ("downloads/" ++ qj.jobId ++ ".zip"))
      = .ok url) :
    processDownloadJob up2 pre2 now qj s
      = (.ok (), (updateJob now qj.jobId (readyUpdate now url) s1).2.1,
        evs1 ++ (updateJob now qj.jobId (readyUpdate now url) s1).2.2) := by
  simp only [processDownloadJob, hj]
  rw [hrun]
  simp only [hpre]

theorem processDownloadJob_batchfail_eq (up2 : Int → Except String String)
    (pre2 : String → Except String String) (now : Int) (qj : QueueJob)
    (s : Store) (j : Job) (hj : mapGet s qj.jobId = some j)
    {e : String} {s1 : Store} {evs1 : List Event}
    (hrun : runBatchLoop up2 now qj.jobId qj.fileIds.length
      (chunkFiles qj.fileIds) 0 []
      (updateJob now qj.jobId (processingUpdate now) s).2.1
      (updateJob now qj.jobId (processingUpdate now) s).2.2
      = (.error e, s1, evs1)) :
    processDownloadJob up2 pre2 now qj s
      = (.error e, (updateJob now qj.jobId (failedUpdate now e) s1).2.1,
        evs1 ++ (updateJob now qj.jobId (failedUpdate now e) s1).2.2) := by
  simp only [processDownloadJob, hj]
  rw [hrun]

theorem processDownloadJob_prefail_eq (up2 : Int → Except String String)
    (pre2 : String → Except String String) (now : Int) (qj : QueueJob)
    (s : Store) (j : Job) (hj : mapGet s qj.jobId = some j)
    {ks : List String} {s1 : Store} {evs1 : List Event}
    (hrun : runBatchLoop up2 now qj.jobId qj.fileIds.length
      (chunkFiles qj.fileIds) 0 []
      (updateJob now qj.jobId (processingUpdate now) s).2.1
      (updateJob now qj.jobId (processingUpdate now) s).2.2
      = (.ok ks, s1, evs1))
    {e : String}
    (hpre : pre2 (ks.getLast?.getD ("downloads/" ++ qj.jobId ++ ".zip"))
      = .error e) :
    processDownloadJob up2 pre2 now qj s
      = (.error e, (updateJob now qj.jobId (failedUpdate now e) s1).2.1,
        evs1 ++ (updateJob now qj.jobId (failedUpdate now e) s1).2.2) := by
  simp only [processDownloadJob, hj]
  rw [hrun]
  simp only [hpre]

/-! ### C5 -/

/-- C5: with a storage capability and URL issuance that always succeed, the
worker partitions a non-empty `fileIds` into consecutive batches of the
fixed size 3 in order — all full except possibly the last, and flattening
back to exactly `fileIds` — and after the k-th batch writes the job's
progress as `round(filesCompleted_k / totalFiles * 100)` where
`filesCompleted_k` is the running number of finished files; after the last
batch the job is set `ready` with progress 100 and a non-null
`downloadUrl`. -/
theorem worker_success_run (up : Int → String) (pre : String → String)
    (now : Int) (jid : String) (fids : List Int) (addedAt : Int) (att : Nat)
    (s : Store) (j : Job) (hj : mapGet s jid = some j) (_hne : fids ≠ []) :
    ∃ (s2 : Store) (evs2 : List Event) (jf : Job),
      processDownloadJob (fun f => Except.ok (up f))
        (fun k2 => Except.ok (pre k2)) now
        ⟨jid, fids, addedAt, att⟩ s = (.ok (), s2, evs2) ∧
      mapGet s2 jid = some jf ∧
      jf.status = .ready ∧
      jf.progress = 100 ∧
      jf.downloadUrl.isSome = true ∧
      (chunkFiles fids).flatten = fids ∧
      (∀ b ∈ chunkFiles fids, b.length ≤ PARALLEL_FILE_BATCH_SIZE ∧ b ≠ []) ∧
      (∀ b ∈ (chunkFiles fids).dropLast, b.length = PARALLEL_FILE_BATCH_SIZE) ∧
      writeProgressValues jid evs2
        = 0 :: ((prefixCountsFrom 0 (chunkFiles fids)).map
            (fun c => jsRound100 c fids.length) ++ [100]) := by
  have hj1 : mapGet (updateJob now jid (processingUpdate now) s).2.1 jid
      = some (applyUpdates j (processingUpdate now) now) := by
    simp [updateJob, hj, mapGet_mapSet_self]
  obtain ⟨s1, evs1, hrun, hsnap, hget⟩ := runBatchLoop_ok up now jid fids.length
    (chunkFiles fids) 0 []
    (updateJob now jid (processingUpdate now) s).2.1
    (updateJob now jid (processingUpdate now) s).2.2
    (applyUpdates j (processingUpdate now) now) hj1
  obtain ⟨jmid, hgetm⟩ : ∃ jm : Job, mapGet s1 jid = some jm := ⟨_, hget⟩
  have heq0 := processDownloadJob_ok_eq (fun f => Except.ok (up f))
    (fun k2 => Except.ok (pre k2)) now ⟨jid, fids, addedAt, att⟩ s j hj hrun rfl
  obtain ⟨url0, heq⟩ : ∃ url0 : String,
      processDownloadJob (fun f => Except.ok (up f))
        (fun k2 => Except.ok (pre k2)) now ⟨jid, fids, addedAt, att⟩ s
      = (.ok (), (updateJob now jid (readyUpdate now url0) s1).2.1,
        evs1 ++ (updateJob now jid (readyUpdate now url0) s1).2.2) := ⟨_, heq0⟩
  have hgetf : mapGet (updateJob now jid (readyUpdate now url0) s1).2.1 jid
      = some (applyUpdates jmid (readyUpdate now url0) now) := by
    simp [updateJob, hgetm, mapGet_mapSet_self]
  refine ⟨_, _, applyUpdates jmid (readyUpdate now url0) now, heq, hgetf,
    ?_, ?_, ?_, chunkFiles_flatten fids, chunkFiles_sizes fids,
    chunkFiles_full_sizes fids, ?_⟩
  · simp [applyUpdates, readyUpdate]
  · simp [applyUpdates, readyUpdate]
  · simp [applyUpdates, readyUpdate, mergeOpt]
  · have hsnapAll : writeSnapshots jid
        (evs1 ++ (updateJob now jid (readyUpdate now url0) s1).2.2)
        = applyUpdates j (processingUpdate now) now ::
          ((prefixCountsFrom 0 (chunkFiles fids)).map
            (progressWrite (applyUpdates j (processingUpdate now) now) now
              fids.length)
            ++ [applyUpdates jmid (readyUpdate now url0) now]) := by
      rw [writeSnapshots_append, hsnap,
        writeSnapshots_updateJob now jid (processingUpdate now) s j hj,
        writeSnapshots_updateJob now jid (readyUpdate now url0) s1 jmid hgetm]
      simp
    unfold writeProgressValues
    rw [hsnapAll]
    simp [applyUpdates, processingUpdate, readyUpdate, Function.comp,
      progressWrite]

/-- A freshly created queued job over four files, as stored by `createJob`. -/
def queuedFixture : Job :=
  { jobId := "55555555-5555-4555-8555-555555555555"
    fileIds := [10001, 10002, 10003, 10004]
    status := .queued
    progress := 0
    createdAt := 0
    updatedAt := 0 }

/-- Witness for `worker_success_run` on a four-file job (batches of 3 + 1,
progress writes 75 then 100). -/
theorem worker_success_run_witness :
    mapGet [(queuedFixture.jobId, queuedFixture)] queuedFixture.jobId
        = some queuedFixture ∧
    ([10001, 10002, 10003, 10004] : List Int) ≠ [] ∧
    (∃ (s2 : Store) (evs2 : List Event) (jf : Job),
      processDownloadJob (fun f => Except.ok ((fun _ => "key") f))
        (fun k2 => Except.ok ((fun _ => "url") k2)) 1
        ⟨queuedFixture.jobId, [10001, 10002, 10003, 10004], 0, 0⟩
        [(queuedFixture.jobId, queuedFixture)] = (.ok (), s2, evs2) ∧
      mapGet s2 queuedFixture.jobId = some jf ∧
      jf.status = .ready ∧
      jf.progress = 100 ∧
      jf.downloadUrl.isSome = true ∧
      (chunkFiles [10001, 10002, 10003, 10004]).flatten
        = [10001, 10002, 10003, 10004] ∧
      (∀ b ∈ chunkFiles [10001, 10002, 10003, 10004],
        b.length ≤ PARALLEL_FILE_BATCH_SIZE ∧ b ≠ []) ∧
      (∀ b ∈ (chunkFiles [10001, 10002, 10003, 10004]).dropLast,
        b.length = PARALLEL_FILE_BATCH_SIZE) ∧
      writeProgressValues queuedFixture.jobId evs2
        = 0 :: ((prefixCountsFrom 0
            (chunkFiles [10001, 10002, 10003, 10004])).map
            (fun c => jsRound100 c
              ([10001, 10002, 10003, 10004] : List Int).length) ++ [100])) :=
  ⟨rfl, by decide,
    worker_success_run (fun _ => "key") (fun _ => "url") 1 queuedFixture.jobId
      [10001, 10002, 10003, 10004] 0 0 [(queuedFixture.jobId, queuedFixture)]
      queuedFixture rfl (by decide)⟩

/-! ### C6 -/

/-- One attempt with an always-failing storage capability: the job is
marked `processing` (progress 0), the first batch fails immediately, and
the `catch` block marks the job `failed` with the error message. -/
theorem processDownloadJob_allfail (e : String)
    (pre2 : String → Except String String) (now : Int) (jid : String)
    (f : Int) (fids : List Int) (addedAt : Int) (att : Nat) (s : Store)
    (j : Job) (hj : mapGet s jid = some j) :
    processDownloadJob (fun _ => Except.error e) pre2 now
        ⟨jid, f :: fids, addedAt, att⟩ s
      = (.error e,
        (updateJob now jid (failedUpdate now e)
          (updateJob now jid (processingUpdate now) s).2.1).2.1,
        (updateJob now jid (processingUpdate now) s).2.2 ++
          (updateJob now jid (failedUpdate now e)
            (updateJob now jid (processingUpdate now) s).2.1).2.2) := by
  apply processDownloadJob_batchfail_eq (fun _ => Except.error e) pre2 now
    ⟨jid, f :: fids, addedAt, att⟩ s j hj
  simp [chunkFiles, runBatchLoop, runBatch]

/-- The job stored after one failed attempt on top of `j`. -/
theorem mapGet_after_failed_attempt (now : Int) (jid : String) (e : String)
    (s : Store) (j : Job) (hj : mapGet s jid = some j) :
    mapGet (updateJob now jid (failedUpdate now e)
        (updateJob now jid (processingUpdate now) s).2.1).2.1 jid
      = some (applyUpdates (applyUpdates j (processingUpdate now) now)
          (failedUpdate now e) now) := by
  have h1 : mapGet (updateJob now jid (processingUpdate now) s).2.1 jid
      = some (applyUpdates j (processingUpdate now) now) := by
    simp [updateJob, hj, mapGet_mapSet_self]
  generalize hs2 : (updateJob now jid (processingUpdate now) s).2.1 = s2 at h1 ⊢
  simp [updateJob, h1, mapGet_mapSet_self]

theorem runJobAttempts_allfail (e : String)
    (pre2 : Nat → String → Except String String) (now : Int) (jid : String)
    (f : Int) (fids : List Int) (addedAt : Int) (mR : Nat) :
    ∀ (n a : Nat) (s : Store) (j : Job), mR - a = n + 1 →
      mapGet s jid = some j →
      (runJobAttempts mR (fun _ _ => Except.error e) pre2 now
        ⟨jid, f :: fids, addedAt, a⟩ s).1 = n + 1 ∧
      ∃ jf, mapGet (runJobAttempts mR (fun _ _ => Except.error e) pre2 now
          ⟨jid, f :: fids, addedAt, a⟩ s).2.1 jid = some jf ∧
        jf.status = .failed ∧ jf.error = some e ∧ jf.progress = 0 := by
  intro n
  induction n with
  | zero =>
    intro a s j hmr hj
    have hpd := processDownloadJob_allfail e (pre2 (a + 1)) now jid f fids
      addedAt (a + 1) s j hj
    rw [runJobAttempts]
    simp only [hpd]
    have hlt : ¬(a + 1 < mR) := by omega
    simp only [hlt, dif_neg, not_false_iff]
    refine ⟨trivial, _, mapGet_after_failed_attempt now jid e s j hj, ?_, ?_, ?_⟩
    · simp [applyUpdates, processingUpdate, failedUpdate, mergeOpt]
    · simp [applyUpdates, processingUpdate, failedUpdate, mergeOpt]
    · simp [applyUpdates, processingUpdate, failedUpdate, mergeOpt]
  | succ n ih =>
    intro a s j hmr hj
    have hpd := processDownloadJob_allfail e (pre2 (a + 1)) now jid f fids
      addedAt (a + 1) s j hj
    rw [runJobAttempts]
    simp only [hpd]
    have hlt : a + 1 < mR := by omega
    simp only [hlt, dif_pos]
    have hj2 := mapGet_after_failed_attempt now jid e s j hj
    have hrec := ih (a + 1)
      (updateJob now jid (failedUpdate now e)
        (updateJob now jid (processingUpdate now) s).2.1).2.1
      (applyUpdates (applyUpdates j (processingUpdate now) now)
        (failedUpdate now e) now)
      (by omega) hj2
    exact ⟨by rw [hrec.1], hrec.2⟩

/-- C6: when the storage capability fails on every upload attempt, the
queue invokes the executor exactly `maxRetries` times for the entry and
then drops it; the job ends in status `failed` with a non-null `error`,
and its progress stays frozen at the last value written before the failure
— 0 here, since no batch ever completed — not forced to 100. -/
theorem storage_always_fails_exhausts_retries (mR : Nat) (hmR : 1 ≤ mR)
    (e : String) (pre2 : Nat → String → Except String String) (now : Int)
    (jid : String) (f : Int) (fids : List Int) (addedAt : Int)
    (s : Store) (j : Job) (hj : mapGet s jid = some j) :
    (runJobAttempts mR (fun _ _ => Except.error e) pre2 now
      ⟨jid, f :: fids, addedAt, 0⟩ s).1 = mR ∧
    ∃ jf, mapGet (runJobAttempts mR (fun _ _ => Except.error e) pre2 now
        ⟨jid, f :: fids, addedAt, 0⟩ s).2.1 jid = some jf ∧
      jf.status = .failed ∧ jf.error = some e ∧ jf.error ≠ none ∧
      jf.progress = 0 ∧ jf.progress ≠ 100 := by
  obtain ⟨h1, jf, h2, h3, h4, h5⟩ := runJobAttempts_allfail e pre2 now jid f
    fids addedAt mR (mR - 1) 0 s j (by omega) hj
  exact ⟨by rw [h1]; omega, jf, h2, h3, h4, by simp [h4], h5, by simp [h5]⟩

/-- Witness for `storage_always_fails_exhausts_retries`: three retries on a
four-file job whose uploads always fail. -/
theorem storage_always_fails_witness :
    (1 : Nat) ≤ 3 ∧
    mapGet [(queuedFixture.jobId, queuedFixture)] queuedFixture.jobId
        = some queuedFixture ∧
    ((runJobAttempts 3 (fun _ _ => Except.error "S3 upload failed")
        (fun _ _ => Except.ok "u") 2
        ⟨queuedFixture.jobId, 10001 :: [10002, 10003, 10004], 0, 0⟩
        [(queuedFixture.jobId, queuedFixture)]).1 = 3 ∧
      ∃ jf, mapGet (runJobAttempts 3
          (fun _ _ => Except.error "S3 upload failed")
          (fun _ _ => Except.ok "u") 2
          ⟨queuedFixture.jobId, 10001 :: [10002, 10003, 10004], 0, 0⟩
          [(queuedFixture.jobId, queuedFixture)]).2.1 queuedFixture.jobId
          = some jf ∧
        jf.status = .failed ∧ jf.error = some "S3 upload failed" ∧
        jf.error ≠ none ∧ jf.progress = 0 ∧ jf.progress ≠ 100) :=
  ⟨by decide, rfl,
    storage_always_fails_exhausts_retries 3 (by decide) "S3 upload failed"
      (fun _ _ => Except.ok "u") 2 queuedFixture.jobId 10001
      [10002, 10003, 10004] 0 [(queuedFixture.jobId, queuedFixture)]
      queuedFixture rfl⟩

/-! ### Scheduler state machine (`SimpleQueue`)

JS is single-threaded, so `tryProcess`'s `while` loop runs atomically
between `await` points; the interleaving of `add` / handler completions /
`pause` / `resume` / `stop` is modelled as a step relation on the queue
state.  An entry is "running" from the synchronous prefix of `processJob`
(which increments `activeJobs` and the attempt counter) until its
`finally` block (which decrements and re-dispatches, after the `catch`
block possibly re-appended the entry). -/

/-- The mutable state of a `SimpleQueue`: the pending FIFO list, the
entries currently inside a `processJob` invocation, and the
configuration/flags; `activeJobs` is the running count. -/
structure QueueState where
  queue : List QueueJob
  running : List QueueJob
  concurrency : Nat
  maxRetries : Nat
  isRunning : Bool
  hasHandler : Bool
deriving Repr

/-- `this.activeJobs`: incremented at the top of `processJob`, decremented
in its `finally`. -/
def QueueState.activeJobs (s : QueueState) : Nat := s.running.length

/-- The `while (activeJobs < concurrency && queue.length > 0)` loop of
`tryProcess`, with fuel: shift the head entry and start `processJob` on it.
`queue.length` fuel is exact, since every iteration consumes one entry. -/
def dispatchN : Nat → QueueState → QueueState
  | 0, s => s
  | fuel + 1, s =>
    match s.queue with
    | [] => s
    | qj :: rest =>
      if s.running.length < s.concurrency then
        dispatchN fuel
          { s with
            queue := rest
            running := s.running ++ [{ qj with attempts := qj.attempts + 1 }] }
      else s

/-- `tryProcess`: returns immediately unless the queue is running and a
handler is registered, else dispatches up to the concurrency limit. -/
def tryProcess (s : QueueState) : QueueState :=
  if s.isRunning && s.hasHandler then dispatchN s.queue.length s else s

/-- `new SimpleQueue(options)`: empty, no active jobs, not running until
`process(handler)` is called. -/
def initQueue (concurrency maxRetries : Nat) : QueueState :=
  { queue := []
    running := []
    concurrency := concurrency
    maxRetries := maxRetries
    isRunning := false
    hasHandler := false }

/-- The queue's operations as an interleaving step relation: `add` appends
a fresh entry then dispatches; `register` installs the handler and starts
dispatch; a running entry finishes either successfully (`complete`) or
with an error (`fail`, re-appending the entry when `attempts < maxRetries`),
in both cases decrementing the active count and re-dispatching; `pause`,
`resume` and `stop` toggle/clear as in the source. -/
inductive QStep : QueueState → QueueState → Prop
  | add (s : QueueState) (jid : String) (fids : List Int) (t : Int) :
      QStep s (tryProcess { s with queue := s.queue ++ [⟨jid, fids, t, 0⟩] })
  | register (s : QueueState) :
      QStep s (tryProcess { s with hasHandler := true, isRunning := true })
  | complete (s : QueueState) (qj : QueueJob) (pre post : List QueueJob)
      (h : s.running = pre ++ qj :: post) :
      QStep s (tryProcess { s with running := pre ++ post })
  | fail (s : QueueState) (qj : QueueJob) (pre post : List QueueJob)
      (h : s.running = pre ++ qj :: post) :
      QStep s (tryProcess
        { s with
          running := pre ++ post
          queue := if qj.attempts < s.maxRetries then s.queue ++ [qj]
            else s.queue })
  | pause (s : QueueState) : QStep s { s with isRunning := false }
  | resume (s : QueueState) :
      QStep s (tryProcess { s with isRunning := true })
  | stop (s : QueueState) :
      QStep s { s with isRunning := false, queue := [] }

/-- Queue states reachable from an initial state by any interleaving. -/
inductive QReachable (init : QueueState) : QueueState → Prop
  | refl : QReachable init init
  | step {s t : QueueState} : QReachable init s → QStep s t →
      QReachable init t

theorem dispatchN_concurrency (fuel : Nat) (s : QueueState) :
    (dispatchN fuel s).concurrency = s.concurrency := by
  induction fuel generalizing s with
  | zero => rfl
  | succ n ih =>
    rw [dispatchN]
    cases hq : s.queue with
    | nil => rfl
    | cons qj rest =>
      by_cases hlt : s.running.length < s.concurrency
      · simp only [hlt, if_true]
        rw [ih]
      · simp [hlt]

/-- The dispatch loop preserves the ceiling: it only starts an entry while
strictly below the limit. -/
theorem dispatchN_active_le (fuel : Nat) (s : QueueState)
    (h : s.running.length ≤ s.concurrency) :
    (dispatchN fuel s).running.length ≤ s.concurrency := by
  induction fuel generalizing s with
  | zero => exact h
  | succ n ih =>
    rw [dispatchN]
    cases hq : s.queue with
    | nil => exact h
    | cons qj rest =>
      by_cases hlt : s.running.length < s.concurrency
      · simp only [hlt, if_true]
        have h2 := ih
          { s with
            queue := rest
            running := s.running ++ [{ qj with attempts := qj.attempts + 1 }] }
          (by simp; omega)
        simpa using h2
      · simp [hlt, h]

theorem tryProcess_active_le (s : QueueState)
    (h : s.running.length ≤ s.concurrency) :
    (tryProcess s).running.length ≤ (tryProcess s).concurrency := by
  unfold tryProcess
  by_cases hb : s.isRunning && s.hasHandler
  · simp only [hb, if_true]
    rw [dispatchN_concurrency]
    exact dispatchN_active_le s.queue.length s h
  · simp only [hb, Bool.false_eq_true, if_false]
    exact h

/-- C7: every queue state reachable from a fresh `SimpleQueue` keeps the
number of simultaneously executing executor invocations (`activeJobs`) at
or below the configured concurrency ceiling, however many entries are
pending. -/
theorem active_le_concurrency (c mRet : Nat) (s : QueueState)
    (h : QReachable (initQueue c mRet) s) :
    s.activeJobs ≤ s.concurrency := by
  induction h with
  | refl => simp [initQueue, QueueState.activeJobs]
  | step hreach hstep ih =>
    cases hstep with
    | add jid fids t =>
      apply tryProcess_active_le
      simpa [QueueState.activeJobs] using ih
    | register =>
      apply tryProcess_active_le
      simpa [QueueState.activeJobs] using ih
    | complete qj pre post hrun =>
      apply tryProcess_active_le
      have h2 := ih
      simp only [QueueState.activeJobs, hrun] at h2
      simp only [List.length_append, List.length_cons] at h2 ⊢
      omega
    | fail qj pre post hrun =>
      apply tryProcess_active_le
      have h2 := ih
      simp only [QueueState.activeJobs, hrun] at h2
      simp only [List.length_append, List.length_cons] at h2 ⊢
      omega
    | pause => simpa [QueueState.activeJobs] using ih
    | resume =>
      apply tryProcess_active_le
      simpa [QueueState.activeJobs] using ih
    | stop => simpa [QueueState.activeJobs] using ih

/-- The state of a concurrency-1 queue right after `process(handler)`. -/
def qsReg : QueueState :=
  tryProcess { initQueue 1 3 with hasHandler := true, isRunning := true }

/-- ... and after then adding one entry, which is dispatched immediately. -/
def qsAfterAdd : QueueState :=
  tryProcess { qsReg with queue := qsReg.queue ++ [⟨"a", [10001], 0, 0⟩] }

/-- Witness for `active_le_concurrency`: register a handler, then add an
entry on a concurrency-1 queue — the entry is dispatched and the invariant
holds at the resulting state. -/
theorem active_le_concurrency_witness :
    QReachable (initQueue 1 3) qsAfterAdd ∧
    qsAfterAdd.activeJobs ≤ qsAfterAdd.concurrency :=
  ⟨QReachable.step (QReachable.step QReachable.refl (QStep.register _))
      (QStep.add _ "a" [10001] 0),
    active_le_concurrency 1 3 _
      (QReachable.step (QReachable.step QReachable.refl (QStep.register _))
        (QStep.add _ "a" [10001] 0))⟩

/-! ### Subscribe endpoint (`GET /v1/download/subscribe/:jobId`) -/

/-- Consume `n` case-insensitive hex digits (`[0-9a-f]` with the `i`
flag). -/
def hexRun : Nat → List Char → Option (List Char)
  | 0, cs => some cs
  | _ + 1, [] => none
  | n + 1, c :: cs =>
    if (('0' ≤ c && c ≤ '9') || ('a' ≤ c && c ≤ 'f')
        || ('A' ≤ c && c ≤ 'F')) then
      hexRun n cs
    else none

/-- Consume a literal dash. -/
def expectDash : List Char → Option (List Char)
  | '-' :: cs => some cs
  | _ => none

/-- The route's UUID format check
`/^[0-9a-f]{8}-[0-9a-f]{4}-[0-9a-f]{4}-[0-9a-f]{4}-[0-9a-f]{12}$/i`. -/
def uuidRegexMatch (str : String) : Bool :=
  (((((((((hexRun 8 str.toList).bind expectDash).bind (hexRun 4)).bind
    expectDash).bind (hexRun 4)).bind expectDash).bind (hexRun 4)).bind
    expectDash).bind (hexRun 12)) == some []

/-- The four response shapes of the subscribe route: 400 invalid format,
404 not found, the one-shot terminal snapshot (no SSE stream), or an open
SSE stream starting from the current state. -/
inductive SubscribeResponse
  | invalidFormat
  | notFound
  | terminalSnapshot (status : JobStatus) (progress : Int)
      (downloadUrl : Option String) (error : Option String)
  | sseStream (startStatus : JobStatus) (startProgress : Int)
deriving DecidableEq, Repr

/-- The subscribe route handler up to the point where a stream is (or is
not) opened: validate the id format, look the job up, short-circuit
terminal jobs with a snapshot, otherwise start streaming. -/
def subscribeToJob (jobId : String) (s : Store) : SubscribeResponse :=
  if !uuidRegexMatch jobId then .invalidFormat
  else
    match mapGet s jobId with
    | none => .notFound
    | some job =>
      if job.status == JobStatus.ready || job.status == JobStatus.failed then
        .terminalSnapshot job.status job.progress job.downloadUrl job.error
      else
        .sseStream job.status job.progress

/-- C8 counterexample: the job id "abc" is unknown (the store is empty),
yet the response is the 400 invalid-format error, not `NotFound`. -/
theorem subscribe_unknown_id_counterexample :
    mapGet ([] : Store) "abc" = none ∧
    subscribeToJob "abc" [] = .invalidFormat ∧
    SubscribeResponse.invalidFormat ≠ SubscribeResponse.notFound := by
  refine ⟨rfl, by decide, by decide⟩

/-- C8 amended: ill-formed job ids are rejected with the invalid-format
error and no stream; for a well-formed (UUID) id, an unknown job yields
`NotFound` and no stream, and a job already in a terminal state yields the
single snapshot of its status, progress, downloadUrl and error, with no
stream opened. -/
theorem subscribe_route_behaviour (jobId : String) (s : Store)
    (hu : uuidRegexMatch jobId = true) :
    (mapGet s jobId = none → subscribeToJob jobId s = .notFound) ∧
    (∀ j, mapGet s jobId = some j → j.status.isTerminal = true →
      subscribeToJob jobId s
        = .terminalSnapshot j.status j.progress j.downloadUrl j.error) ∧
    (∀ jobId2 : String, ∀ s2 : Store, uuidRegexMatch jobId2 = false →
      subscribeToJob jobId2 s2 = .invalidFormat) := by
  refine ⟨?_, ?_, ?_⟩
  · intro h
    simp [subscribeToJob, hu, h]
  · intro j hj ht
    have hb : (j.status == JobStatus.ready || j.status == JobStatus.failed)
        = true := by
      cases hs : j.status <;> simp_all [JobStatus.isTerminal]
    simp [subscribeToJob, hu, hj, hb]
  · intro jobId2 s2 hf
    simp [subscribeToJob, hf]

/-- Witness for `subscribe_route_behaviour` on a store holding a terminal
job under a well-formed UUID. -/
theorem subscribe_route_behaviour_witness :
    uuidRegexMatch oldReadyFixture.jobId = true ∧
    ((mapGet cleanupFixtureStore oldReadyFixture.jobId = none →
      subscribeToJob oldReadyFixture.jobId cleanupFixtureStore = .notFound) ∧
    (∀ j, mapGet cleanupFixtureStore oldReadyFixture.jobId = some j →
      j.status.isTerminal = true →
      subscribeToJob oldReadyFixture.jobId cleanupFixtureStore
        = .terminalSnapshot j.status j.progress j.downloadUrl j.error) ∧
    (∀ jobId2 : String, ∀ s2 : Store, uuidRegexMatch jobId2 = false →
      subscribeToJob jobId2 s2 = .invalidFormat)) :=
  ⟨by decide, subscribe_route_behaviour oldReadyFixture.jobId
    cleanupFixtureStore (by decide)⟩

/-! ### C2: progress monotonicity over the full lifecycle -/

theorem mem_of_getLast?_some {α : Type} {l : List α} {x : α}
    (h : x ∈ l.getLast?) : x ∈ l := by
  obtain ⟨hne, hx⟩ := List.mem_getLast?_eq_getLast h
  rw [hx]
  exact List.getLast_mem hne

/-- Arbitrary-oracle run of the batch loop: some prefix `bs1` of the
batches succeeds, each successful batch appending exactly one progress
write; the loop stops either after all batches or at the first failing
one, and the stored job is the base job at the last written progress. -/
theorem runBatchLoop_trace (up2 : Int → Except String String) (now : Int)
    (jid : String) (total : Nat) :
    ∀ (bs : List (List Int)) (count : Nat) (keys : List String) (s : Store)
      (evs : List Event) (j : Job), mapGet s jid = some j →
      ∃ (res : Except String (List String)) (s1 : Store) (evs1 : List Event)
        (bs1 bs2 : List (List Int)),
        runBatchLoop up2 now jid total bs count keys s evs = (res, s1, evs1) ∧
        bs = bs1 ++ bs2 ∧
        writeSnapshots jid evs1 = writeSnapshots jid evs ++
          (prefixCountsFrom count bs1).map (progressWrite j now total) ∧
        mapGet s1 jid = some (((prefixCountsFrom count bs1).map
          (progressWrite j now total)).getLast?.getD j) := by
  intro bs
  induction bs with
  | nil =>
    intro count keys s evs j hj
    exact ⟨.ok keys, s, evs, [], [], by simp [runBatchLoop], by simp,
      by simp [prefixCountsFrom], by simp [prefixCountsFrom, hj]⟩
  | cons b rest ih =>
    intro count keys s evs j hj
    cases hb : runBatch up2 b with
    | error e =>
      refine ⟨.error e, s, evs, [], b :: rest, ?_, by simp,
        by simp [prefixCountsFrom], by simp [prefixCountsFrom, hj]⟩
      rw [runBatchLoop, hb]
    | ok newKeys =>
      have hupd : mapGet (updateJob now jid
          { progress := some (jsRound100 (count + b.length) total) } s).2.1 jid
          = some (progressWrite j now total (count + b.length)) := by
        simp [updateJob, hj, mapGet_mapSet_self, applyUpdates_progress_only,
          progressWrite]
      obtain ⟨res, s1, evs1, bs1, bs2, hrun, hsplit, hsnap, hget⟩ :=
        ih (count + b.length) (keys ++ newKeys) _ _ _ hupd
      have hstep : runBatchLoop up2 now jid total (b :: rest) count keys s evs
          = runBatchLoop up2 now jid total rest (count + b.length)
            (keys ++ newKeys)
            (updateJob now jid
              { progress := some (jsRound100 (count + b.length) total) } s).2.1
            (evs ++ (updateJob now jid
              { progress := some (jsRound100 (count + b.length) total) }
              s).2.2) := by
        rw [runBatchLoop, hb]
      have hmapeq : (prefixCountsFrom (count + b.length) bs1).map
          (progressWrite (progressWrite j now total (count + b.length)) now
            total)
          = (prefixCountsFrom (count + b.length) bs1).map
            (progressWrite j now total) := by
        apply List.map_congr_left
        intro c hc
        exact progressWrite_collapse j now total (count + b.length) c
      refine ⟨res, s1, evs1, b :: bs1, bs2, ?_, by simp [hsplit], ?_, ?_⟩
      · rw [hstep, hrun]
      · rw [hsnap, writeSnapshots_append,
          writeSnapshots_updateJob now jid _ s j hj]
        rw [hmapeq]
        have hw : applyUpdates j
            { progress := some (jsRound100 (count + b.length) total) } now
            = progressWrite j now total (count + b.length) := rfl
        rw [hw]
        simp [prefixCountsFrom]
      · rw [hget, hmapeq]
        simp only [prefixCountsFrom, List.map_cons]
        rw [getLast?_getD_cons]

theorem jsRound100_zero (t : Nat) : jsRound100 0 t = 0 := by
  simp only [jsRound100]
  rcases Nat.eq_zero_or_pos t with ht | ht
  · subst ht
    simp
  · rw [Nat.mul_zero, Nat.zero_add, Nat.div_eq_of_lt (by omega)]
    simp

/-- One worker attempt on a stored job, any oracles: the per-job write
snapshots are one `processing` write at progress 0, then one `processing`
write per completed batch with non-decreasing progress bounded by 100, and
exactly one final terminal write whose progress is at least the preceding
write's (100 on success, unchanged on failure). -/
theorem processDownloadJob_attempt_snapshots (up2 : Int → Except String String)
    (pre2 : String → Except String String) (now : Int) (jid : String)
    (fids : List Int) (addedAt : Int) (att : Nat) (s : Store) (j : Job)
    (hj : mapGet s jid = some j) :
    ∃ (res : Except String Unit) (s2 : Store) (evs2 : List Event)
      (mids : List Job) (jterm : Job),
      processDownloadJob up2 pre2 now ⟨jid, fids, addedAt, att⟩ s
        = (res, s2, evs2) ∧
      mapGet s2 jid = some jterm ∧
      jterm.status.isTerminal = true ∧
      writeSnapshots jid evs2
        = (applyUpdates j (processingUpdate now) now :: mids) ++ [jterm] ∧
      (∀ x ∈ applyUpdates j (processingUpdate now) now :: mids,
        x.status.isTerminal = false) ∧
      List.Chain' (fun a b => a.progress ≤ b.progress)
        (applyUpdates j (processingUpdate now) now :: mids) ∧
      (∀ y ∈ (applyUpdates j (processingUpdate now) now :: mids).getLast?,
        y.progress ≤ jterm.progress) := by
  have hj1 : mapGet (updateJob now jid (processingUpdate now) s).2.1 jid
      = some (applyUpdates j (processingUpdate now) now) := by
    simp [updateJob, hj, mapGet_mapSet_self]
  obtain ⟨res1, s1, evs1, bs1, bs2, hrun, hsplit, hsnap, hget⟩ :=
    runBatchLoop_trace up2 now jid fids.length (chunkFiles fids) 0 []
      (updateJob now jid (processingUpdate now) s).2.1
      (updateJob now jid (processingUpdate now) s).2.2
      (applyUpdates j (processingUpdate now) now) hj1
  rw [writeSnapshots_updateJob now jid (processingUpdate now) s j hj] at hsnap
  obtain ⟨jmid, hgetm, hjmid⟩ : ∃ jm : Job, mapGet s1 jid = some jm ∧
      jm = (((prefixCountsFrom 0 bs1).map
        (progressWrite (applyUpdates j (processingUpdate now) now) now
          fids.length)).getLast?.getD
        (applyUpdates j (processingUpdate now) now)) := ⟨_, hget, rfl⟩
  have hcle : ∀ c ∈ prefixCountsFrom 0 bs1, c ≤ fids.length := by
    intro c hc
    have h1 := prefixCountsFrom_le 0 bs1 c hc
    have h2 : (bs1.map List.length).sum ≤ ((bs1 ++ bs2).map List.length).sum := by
      simp
    have h3 : ((bs1 ++ bs2).map List.length).sum = fids.length := by
      rw [← hsplit, chunkFiles_sum_length]
    omega
  have hmidstatus : ∀ x ∈ (prefixCountsFrom 0 bs1).map
      (progressWrite (applyUpdates j (processingUpdate now) now) now
        fids.length), x.status = JobStatus.processing := by
    intro x hx
    rcases List.mem_map.mp hx with ⟨c, hc, hxeq⟩
    rw [← hxeq]
    simp [progressWrite, applyUpdates, processingUpdate]
  have hprog100 : ∀ x ∈ applyUpdates j (processingUpdate now) now ::
      (prefixCountsFrom 0 bs1).map
        (progressWrite (applyUpdates j (processingUpdate now) now) now
          fids.length), x.progress ≤ 100 := by
    intro x hx
    rcases List.mem_cons.mp hx with h | h
    · subst h
      simp [applyUpdates, processingUpdate]
    · rcases List.mem_map.mp h with ⟨c, hc, hxeq⟩
      rw [← hxeq]
      simpa [progressWrite] using jsRound100_le_100 (hcle c hc)
  have hnonterm : ∀ x ∈ applyUpdates j (processingUpdate now) now ::
      (prefixCountsFrom 0 bs1).map
        (progressWrite (applyUpdates j (processingUpdate now) now) now
          fids.length), x.status.isTerminal = false := by
    intro x hx
    rcases List.mem_cons.mp hx with h | h
    · subst h
      simp [applyUpdates, processingUpdate, JobStatus.isTerminal]
    · rw [hmidstatus x h]
      rfl
  have hchain : List.Chain' (fun a b => a.progress ≤ b.progress)
      (applyUpdates j (processingUpdate now) now ::
        (prefixCountsFrom 0 bs1).map
          (progressWrite (applyUpdates j (processingUpdate now) now) now
            fids.length)) := by
    apply (List.chain'_map Job.progress).mp
    have hmapeq : (applyUpdates j (processingUpdate now) now ::
        (prefixCountsFrom 0 bs1).map
          (progressWrite (applyUpdates j (processingUpdate now) now) now
            fids.length)).map Job.progress
        = (0 :: prefixCountsFrom 0 bs1).map
            (fun c => jsRound100 c fids.length) := by
      simp [List.map_map, Function.comp, progressWrite, applyUpdates,
        processingUpdate, jsRound100_zero]
    rw [hmapeq]
    exact List.chain'_map_of_chain' _ (fun a b h => jsRound100_mono _ h)
      (prefixCountsFrom_chain 0 bs1)
  have hlastmid : ∀ y ∈ (applyUpdates j (processingUpdate now) now ::
      (prefixCountsFrom 0 bs1).map
        (progressWrite (applyUpdates j (processingUpdate now) now) now
          fids.length)).getLast?, y = jmid := by
    intro y hy
    rw [Option.mem_def] at hy
    have hyd : y = ((prefixCountsFrom 0 bs1).map
        (progressWrite (applyUpdates j (processingUpdate now) now) now
          fids.length)).getLast?.getD
        (applyUpdates j (processingUpdate now) now) := by
      rw [← getLast?_getD_cons (applyUpdates j (processingUpdate now) now)
        (applyUpdates j (processingUpdate now) now), hy]
      rfl
    rw [hyd, ← hjmid]
  cases res1 with
  | error e =>
    have heq := processDownloadJob_batchfail_eq up2 pre2 now
      ⟨jid, fids, addedAt, att⟩ s j hj hrun
    have hgf : mapGet (updateJob now jid (failedUpdate now e) s1).2.1 jid
        = some (applyUpdates jmid (failedUpdate now e) now) := by
      simp [updateJob, hgetm, mapGet_mapSet_self]
    have hwsfin : writeSnapshots jid
        (evs1 ++ (updateJob now jid (failedUpdate now e) s1).2.2)
        = (applyUpdates j (processingUpdate now) now ::
            (prefixCountsFrom 0 bs1).map
              (progressWrite (applyUpdates j (processingUpdate now) now) now
                fids.length))
          ++ [applyUpdates jmid (failedUpdate now e) now] := by
      rw [writeSnapshots_append, hsnap,
        writeSnapshots_updateJob now jid (failedUpdate now e) s1 jmid hgetm]
      simp
    refine ⟨.error e, _, _, _, applyUpdates jmid (failedUpdate now e) now,
      heq, hgf, ?_, hwsfin, hnonterm, hchain, ?_⟩
    · simp [applyUpdates, failedUpdate, JobStatus.isTerminal]
    · intro y hy
      rw [hlastmid y hy]
      simp [applyUpdates, failedUpdate]
  | ok ks =>
    cases hp : pre2 (ks.getLast?.getD ("downloads/" ++ jid ++ ".zip")) with
    | error e =>
      have heq := processDownloadJob_prefail_eq up2 pre2 now
        ⟨jid, fids, addedAt, att⟩ s j hj hrun hp
      have hgf : mapGet (updateJob now jid (failedUpdate now e) s1).2.1 jid
          = some (applyUpdates jmid (failedUpdate now e) now) := by
        simp [updateJob, hgetm, mapGet_mapSet_self]
      have hwsfin : writeSnapshots jid
          (evs1 ++ (updateJob now jid (failedUpdate now e) s1).2.2)
          = (applyUpdates j (processingUpdate now) now ::
              (prefixCountsFrom 0 bs1).map
                (progressWrite (applyUpdates j (processingUpdate now) now) now
                  fids.length))
            ++ [applyUpdates jmid (failedUpdate now e) now] := by
        rw [writeSnapshots_append, hsnap,
          writeSnapshots_updateJob now jid (failedUpdate now e) s1 jmid hgetm]
        simp
      refine ⟨.error e, _, _, _, applyUpdates jmid (failedUpdate now e) now,
        heq, hgf, ?_, hwsfin, hnonterm, hchain, ?_⟩
      · simp [applyUpdates, failedUpdate, JobStatus.isTerminal]
      · intro y hy
        rw [hlastmid y hy]
        simp [applyUpdates, failedUpdate]
    | ok url =>
      have heq := processDownloadJob_ok_eq up2 pre2 now
        ⟨jid, fids, addedAt, att⟩ s j hj hrun hp
      have hgf : mapGet (updateJob now jid (readyUpdate now url) s1).2.1 jid
          = some (applyUpdates jmid (readyUpdate now url) now) := by
        simp [updateJob, hgetm, mapGet_mapSet_self]
      have hwsfin : writeSnapshots jid
          (evs1 ++ (updateJob now jid (readyUpdate now url) s1).2.2)
          = (applyUpdates j (processingUpdate now) now ::
              (prefixCountsFrom 0 bs1).map
                (progressWrite (applyUpdates j (processingUpdate now) now) now
                  fids.length))
            ++ [applyUpdates jmid (readyUpdate now url) now] := by
        rw [writeSnapshots_append, hsnap,
          writeSnapshots_updateJob now jid (readyUpdate now url) s1 jmid hgetm]
        simp
      refine ⟨.ok (), _, _, _, applyUpdates jmid (readyUpdate now url) now,
        heq, hgf, ?_, hwsfin, hnonterm, hchain, ?_⟩
      · simp [applyUpdates, readyUpdate, JobStatus.isTerminal]
      · intro y hy
        have hym := mem_of_getLast?_some hy
        have := hprog100 y hym
        simpa [applyUpdates, readyUpdate] using this

/-- The prefix of a snapshot sequence up to and including the first
snapshot carrying a terminal status: the claim constrains nothing that
happens after the job first reaches a terminal status. -/
def snapshotsUntilTerminal : List Job → List Job
  | [] => []
  | j :: rest =>
    if j.status.isTerminal then [j] else j :: snapshotsUntilTerminal rest

theorem snapshotsUntilTerminal_split (l1 : List Job) (t : Job)
    (l2 : List Job) (h1 : ∀ x ∈ l1, x.status.isTerminal = false)
    (ht : t.status.isTerminal = true) :
    snapshotsUntilTerminal (l1 ++ t :: l2) = l1 ++ [t] := by
  induction l1 with
  | nil => simp [snapshotsUntilTerminal, ht]
  | cons a l ih =>
    have ha := h1 a (by simp)
    simp only [List.cons_append, snapshotsUntilTerminal, ha,
      Bool.false_eq_true, if_false]
    simp [ih (fun x hx => h1 x (by simp [hx]))]

theorem chain'_progress_of_all_eq (a : Job) (l : List Job)
    (h : ∀ x ∈ l, x = a) :
    List.Chain' (fun x y => x.progress ≤ y.progress) l := by
  induction l with
  | nil => exact List.chain'_nil
  | cons x xs ih =>
    rw [List.chain'_cons']
    refine ⟨?_, ih (fun z hz => h z (List.mem_cons_of_mem x hz))⟩
    intro y hy
    have hyy : y ∈ xs := List.mem_of_mem_head? hy
    rw [h x (List.mem_cons_self x xs), h y (List.mem_cons_of_mem x hyy)]

/-- The full event history of one job: `createJob`, enqueue, and the
queue driving the entry to completion under its retry policy, with
per-attempt storage and URL-issuance oracles. -/
def jobLifecycleEvents (maxRetries : Nat)
    (upload : Nat → Int → Except String String)
    (presign : Nat → String → Except String String)
    (tCreate tRun : Int) (jid : String) (fids : List Int) (s : Store) :
    List Event :=
  (createJob tCreate ⟨jid, fids⟩ s).2.2 ++
    (runJobAttempts maxRetries upload presign tRun
      ⟨jid, fids, tCreate, 0⟩ (createJob tCreate ⟨jid, fids⟩ s).2.1).2.2

/-- C2: over the sequence of per-job store writes produced by creating a
job and driving its queue entry to completion — including retried attempts
after executor failures — the job's progress is non-decreasing up to and
including the first write that carries a terminal status. -/
theorem progress_monotone_until_terminal (maxRetries : Nat)
    (upload : Nat → Int → Except String String)
    (presign : Nat → String → Except String String)
    (tCreate tRun : Int) (jid : String) (fids : List Int) (s : Store) :
    List.Chain' (fun a b => a.progress ≤ b.progress)
      (snapshotsUntilTerminal (writeSnapshots jid
        (jobLifecycleEvents maxRetries upload presign tCreate tRun jid fids
          s))) := by
  have hc : mapGet (createJob tCreate ⟨jid, fids⟩ s).2.1 jid
      = some (createJob tCreate ⟨jid, fids⟩ s).1 := by
    simp [createJob, mapGet_mapSet_self]
  obtain ⟨res, s2, evs2, mids, jterm, heqA, hgA, htermA, hwsA, hntA, hchA,
    hbA⟩ :=
    processDownloadJob_attempt_snapshots (upload 1) (presign 1) tRun jid fids
      tCreate 1 (createJob tCreate ⟨jid, fids⟩ s).2.1
      (createJob tCreate ⟨jid, fids⟩ s).1 hc
  have hevents : ∃ restEvs : List Event,
      (runJobAttempts maxRetries upload presign tRun
        ⟨jid, fids, tCreate, 0⟩ (createJob tCreate ⟨jid, fids⟩ s).2.1).2.2
      = evs2 ++ restEvs := by
    rw [runJobAttempts]
    simp only [heqA]
    cases res with
    | ok u => exact ⟨[], by simp⟩
    | error e =>
      by_cases hlt : 0 + 1 < maxRetries
      · simp only [hlt, dif_pos]
        exact ⟨_, rfl⟩
      · simp only [hlt, dif_neg, not_false_iff]
        exact ⟨[], by simp⟩
  obtain ⟨restEvs, hre⟩ := hevents
  have hfull : writeSnapshots jid
      (jobLifecycleEvents maxRetries upload presign tCreate tRun jid fids s)
      = (writeSnapshots jid (createJob tCreate ⟨jid, fids⟩ s).2.2 ++
          (applyUpdates (createJob tCreate ⟨jid, fids⟩ s).1
            (processingUpdate tRun) tRun :: mids)) ++
        (jterm :: writeSnapshots jid restEvs) := by
    rw [jobLifecycleEvents, writeSnapshots_append, hre,
      writeSnapshots_append, hwsA]
    simp
  have hpre : ∀ x ∈ writeSnapshots jid (createJob tCreate ⟨jid, fids⟩ s).2.2,
      x = (createJob tCreate ⟨jid, fids⟩ s).1 := by
    intro x hx
    simp only [writeSnapshots] at hx
    rcases List.mem_map.mp hx with ⟨ev, hev, hx2⟩
    have hev2 := List.mem_of_mem_filter hev
    simp only [createJob, List.mem_cons, List.mem_singleton,
      List.not_mem_nil, or_false] at hev2
    rcases hev2 with h | h <;> simp [← hx2, h, createJob]
  have hcstat : (createJob tCreate ⟨jid, fids⟩ s).1.status.isTerminal
      = false := by
    simp [createJob, JobStatus.isTerminal]
  have hcprog : (createJob tCreate ⟨jid, fids⟩ s).1.progress = 0 := by
    simp [createJob]
  rw [hfull, snapshotsUntilTerminal_split]
  · rw [List.append_assoc]
    apply List.chain'_append.mpr
    refine ⟨chain'_progress_of_all_eq _ _ hpre, ?_, ?_⟩
    · apply List.chain'_append.mpr
      refine ⟨hchA, List.chain'_singleton jterm, ?_⟩
      intro y hy z hz
      simp only [List.head?_cons, Option.mem_def, Option.some.injEq] at hz
      rw [← hz]
      exact hbA y hy
    · intro x hx y hy
      rw [hpre x (mem_of_getLast?_some hx)]
      have hy1 : y = applyUpdates (createJob tCreate ⟨jid, fids⟩ s).1
          (processingUpdate tRun) tRun := by
        simp only [List.cons_append, List.head?_cons, Option.mem_def,
          Option.some.injEq] at hy
        exact hy.symm
      rw [hy1, hcprog]
      simp [applyUpdates, processingUpdate]
  · intro x hx
    rcases List.mem_append.mp hx with h | h
    · rw [hpre x h]
      exact hcstat
    · exact hntA x h
  · exact htermA

end DL
